import Mathlib

/-!
Verification of the do2org journal converter (src/src/main.rs).

The Rust program is shallowly embedded: strings are Lean `String`s and the
character-level operations mirror the three regular expressions of the source
(`^#+\s`, `!\[\]\(dayone-moment://[^)]+\)`, `\[\[dayone-moment://[^\]]+\]\]`,
each used with `Regex::replace`, which rewrites only the leftmost match).
`HashMap`s are association lists; panics become `Except.error`; the external
pandoc subprocess is an opaque `String → String` parameter; the unspecified
iteration order of the properties `HashMap` is a permutation parameter.
Non-ASCII string literals of the source are reproduced codepoint for
codepoint with `\u` escapes (the source file stores the moon glyphs and the
music separator in a double-encoded form, e.g. `full` maps to the four
characters U+00F0 U+0178 U+0152 U+2022).
-/

namespace D1

instance {ε α : Type} [DecidableEq ε] [DecidableEq α] : DecidableEq (Except ε α) :=
  fun a b =>
  match a, b with
  | .error x, .error y => decidable_of_iff (x = y) (by simp)
  | .error _, .ok _ => isFalse (fun h => Except.noConfusion h)
  | .ok _, .error _ => isFalse (fun h => Except.noConfusion h)
  | .ok x, .ok y => decidable_of_iff (x = y) (by simp)

/-- Rust `str::lines` helper: a line that was terminated by a newline has one
trailing carriage return removed. -/
def stripCrChars (cs : List Char) : List Char :=
  match cs.getLast? with
  | some '\r' => cs.dropLast
  | _ => cs

/-- Split a character list at every newline character; always returns at least
one (possibly empty) segment, like `split('\n')`. -/
def splitNlChars : List Char → List (List Char)
  | [] => [[]]
  | c :: rest =>
    if c = '\n' then [] :: splitNlChars rest
    else
      match splitNlChars rest with
      | [] => [[c]]
      | seg :: segs => (c :: seg) :: segs

/-- Rust `str::lines` on the segment list: every segment except the last was
newline-terminated and loses a trailing carriage return; a final empty
segment (the input ended in a newline, or was empty) is dropped. -/
def rustLinesGo : List (List Char) → List (List Char)
  | [] => []
  | [last] => if last = [] then [] else [last]
  | seg :: rest => stripCrChars seg :: rustLinesGo rest

def rustLinesChars (cs : List Char) : List (List Char) :=
  rustLinesGo (splitNlChars cs)

/-- Embedding of Rust `str::lines().collect()`. -/
def rustLines (s : String) : List String :=
  (rustLinesChars s.data).map String.mk

/-- Embedding of `Vec::join("\n")`. -/
def joinNl : List String → String
  | [] => ""
  | [s] => s
  | s :: rest => s ++ "\n" ++ joinNl rest

/-- Embedding of `MARKDOWN_HEADING_REGEX.replace(line, "")` for the anchored
pattern `^#+\s`: a leading nonempty run of `#` followed by one whitespace
character is removed, otherwise the line is unchanged. -/
def stripHeadingChars (cs : List Char) : List Char :=
  match cs.takeWhile (fun c => c = '#'), cs.dropWhile (fun c => c = '#') with
  | _ :: _, c :: tail => if c.isWhitespace then tail else cs
  | _, _ => cs

/-- Drop a literal character prelude, returning the remainder on success. -/
def dropPfx : List Char → List Char → Option (List Char)
  | [], cs => some cs
  | _ :: _, [] => none
  | p :: ps, c :: cs => if p = c then dropPfx ps cs else none

/-- Match the pattern `!\[\]\(dayone-moment://[^)]+\)` at the head of the
list, returning the remainder after the match. -/
def mdPhotoAt (cs : List Char) : Option (List Char) :=
  match dropPfx ("![](dayone-moment://".data) cs with
  | none => none
  | some r =>
    match r.takeWhile (fun c => c ≠ ')'), r.dropWhile (fun c => c ≠ ')') with
    | [], _ => none
    | _ :: _, _ :: tail => some tail
    | _ :: _, [] => none

/-- Embedding of `MARKDOWN_PHOTO_REGEX.replace(line, link)`: the leftmost
match of `!\[\]\(dayone-moment://[^)]+\)` is replaced by `link`. -/
def replaceFirstMdPhoto (link : List Char) : List Char → List Char
  | [] => []
  | c :: rest =>
    match mdPhotoAt (c :: rest) with
    | some tail => link ++ tail
    | none => c :: replaceFirstMdPhoto link rest

/-- Match the pattern `\[\[dayone-moment://[^\]]+\]\]` at the head of the
list, returning the remainder after the match. -/
def orgPhotoAt (cs : List Char) : Option (List Char) :=
  match dropPfx ("[[dayone-moment://".data) cs with
  | none => none
  | some r =>
    match r.takeWhile (fun c => c ≠ ']'), r.dropWhile (fun c => c ≠ ']') with
    | [], _ => none
    | _ :: _, ']' :: ']' :: tail => some tail
    | _, _ => none

/-- Embedding of `PHOTO_REGEX.replace(body, link)`: the leftmost match of
`\[\[dayone-moment://[^\]]+\]\]` is replaced by `link`. -/
def replaceFirstOrgPhoto (link : List Char) : List Char → List Char
  | [] => []
  | c :: rest =>
    match orgPhotoAt (c :: rest) with
    | some tail => link ++ tail
    | none => c :: replaceFirstOrgPhoto link rest

/-! ## The day_one data model -/

structure Metadata where
  version : String
deriving DecidableEq

structure Weather where
  conditions_description : Option String
  moon_phase_code : Option String
deriving DecidableEq

structure Music where
  artist : String
  track : String
deriving DecidableEq

/-- An `f32` field is represented by the exact string Rust `Display`
produces for it; the program only ever formats these values. -/
structure F32 where
  display : String
deriving DecidableEq

structure Location where
  longitude : F32
  latitude : F32
  place_name : String
deriving DecidableEq

/-- `md5` and `type` keep the source field names (`content_hash` and
`file_extension` in the spec). `order_in_entry` is `u8` in the source; its
arithmetic is never exercised, only its ordering, so `Nat` is faithful. -/
structure Photo where
  md5 : String
  type : String
  order_in_entry : Nat
deriving DecidableEq

/-- The already-decoded UTC timestamp: the `dates` deserializer accepts only
`%Y-%m-%dT%H:%M:%SZ`, so every `Entry` carries a concrete UTC calendar
date-time and `Entry::year/month/day` are chrono's UTC projections. -/
structure UtcDate where
  year : Int
  month : Nat
  day : Nat
  hour : Nat
  minute : Nat
  second : Nat
deriving DecidableEq

structure Entry where
  creation_date : UtcDate
  text : Option String
  location : Option Location
  weather : Option Weather
  music : Option Music
  photos : Option (List Photo)
deriving DecidableEq

structure Journal where
  metadata : Metadata
  entries : List Entry
deriving DecidableEq

def Photo.link (p : Photo) : String :=
  "[[./images/" ++ p.md5 ++ "." ++ p.type ++ "]]"

/-- Embedding of `get_moon`; the `panic!("fake moon")` arm becomes an error.
The glyph strings reproduce the source literals codepoint for codepoint. -/
def get_moon (moon : String) : Except String String :=
  if moon = "new" then .ok "ðŸŒ‘"
  else if moon = "waning-crescent" then .ok "ðŸŒ˜"
  else if moon = "last-quarter" then .ok "ðŸŒ—"
  else if moon = "waning-gibbous" then .ok "ðŸŒ–"
  else if moon = "full" then .ok "ðŸŒ•"
  else if moon = "waxing-gibbous" then .ok "ðŸŒ”"
  else if moon = "first-quarter" then .ok "ðŸŒ“"
  else if moon = "waxing-crescent" then .ok "ðŸŒ’"
  else .error "fake moon"

def Entry.year (e : Entry) : Int := e.creation_date.year

def Entry.month (e : Entry) : Nat := e.creation_date.month

def Entry.day (e : Entry) : Nat := e.creation_date.day

/-- The separator of `format!` in the Music property: a space, the three
characters U+00E2 U+20AC U+201D of the source literal, and a space. -/
def musicSep : String := " â€” "

/-- The weather contribution to `Entry::properties`: `Moon` is inserted first
when `moon_phase_code` is present (`get_moon` may abort), then `Weather` when
`conditions_description` is present. -/
def weatherProps (w : Weather) : Except String (List (String × String)) :=
  match w.moon_phase_code with
  | some m =>
    match get_moon m with
    | .error s => .error s
    | .ok g =>
      .ok (("Moon", g) ::
        (match w.conditions_description with
         | some c => [("Weather", c)]
         | none => []))
  | none =>
    .ok (match w.conditions_description with
         | some c => [("Weather", c)]
         | none => [])

/-- Embedding of `Entry::properties`. The `HashMap` is represented by its
key-distinct association list in insertion order; iteration order of the map
is modelled separately at the render level. -/
def Entry.properties (e : Entry) : Except String (List (String × String)) :=
  match (match e.weather with
         | some w => weatherProps w
         | none => .ok []) with
  | .error s => .error s
  | .ok wp =>
    let mp : List (String × String) :=
      match e.music with
      | some mu => [("Music", mu.artist ++ musicSep ++ mu.track)]
      | none => []
    let lp : List (String × String) :=
      match e.location with
      | some loc =>
          [("Latitude", loc.latitude.display),
           ("Longitude", loc.longitude.display),
           ("Location", loc.place_name)]
      | none => []
    .ok (wp ++ mp ++ lp)

/-- Embedding of `Entry::title`. -/
def Entry.title (e : Entry) (first_photo_link : Option String) : Option String :=
  match e.text with
  | none => none
  | some text =>
    match (rustLines text).head? with
    | none => none
    | some line =>
      let line := String.mk (stripHeadingChars line.data)
      match first_photo_link with
      | some fl => some (String.mk (replaceFirstMdPhoto fl.data line.data))
      | none => some line

/-- `photos.sort_by_key(|p| p.order_in_entry)`: a stable sort on the key. -/
def sortPhotos (ps : List Photo) : List Photo :=
  List.insertionSort (fun p q => p.order_in_entry ≤ q.order_in_entry) ps

/-- The photo-substitution loop of `Entry::body`: photos sorted by
`order_in_entry`, each replacing the leftmost remaining placeholder. -/
def substPhotos (ps : List Photo) (body : String) : String :=
  (sortPhotos ps).foldl
    (fun b p => String.mk (replaceFirstOrgPhoto p.link.data b.data)) body

def applyPhotoSubst : Option (List Photo) → String → String
  | none, b => b
  | some ps, b => substPhotos ps b

/-- Embedding of `Entry::body`; `conv` is the opaque pandoc collaborator
(`markdown` to `org`, headings shifted by 4), assumed total and
deterministic. Its first four output lines are dropped, the rest re-joined
with newlines, then the photo placeholders are substituted. -/
def Entry.body (conv : String → String) (e : Entry)
    (photos : Option (List Photo)) : Option String :=
  match e.text with
  | none => none
  | some text =>
    let panbody := conv text
    let b := joinNl ((rustLines panbody).drop 4)
    some (applyPhotoSubst photos b)

/-! ## Calendar helpers (chrono's UTC calendar and `%A` weekday names) -/

def isLeap (y : Int) : Bool :=
  y % 4 == 0 && (y % 100 != 0 || y % 400 == 0)

def daysInMonth (y : Int) (m : Nat) : Nat :=
  match m with
  | 1 => 31
  | 2 => if isLeap y then 29 else 28
  | 3 => 31
  | 4 => 30
  | 5 => 31
  | 6 => 30
  | 7 => 31
  | 8 => 31
  | 9 => 30
  | 10 => 31
  | 11 => 30
  | 12 => 31
  | _ => 0

/-- Validity of a proleptic-Gregorian calendar date, the check behind
chrono's `Utc.ymd` (which panics on an invalid date). -/
def dateValid (y : Int) (m d : Nat) : Bool :=
  decide (1 ≤ m) && decide (m ≤ 12) && decide (1 ≤ d) &&
    decide (d ≤ daysInMonth y m)

/-- Days since 1970-01-01 of a Gregorian date (Hinnant's civil-days
algorithm, the standard basis of chrono's date arithmetic). -/
def daysFromCivil (y : Int) (m d : Nat) : Int :=
  let yy : Int := if m ≤ 2 then y - 1 else y
  let era : Int := Int.fdiv yy 400
  let yoe : Int := yy - era * 400
  let mp : Int := (m : Int) + (if 2 < m then -3 else 9)
  let doy : Int := Int.fdiv (153 * mp + 2) 5 + (d : Int) - 1
  let doe : Int := yoe * 365 + Int.fdiv yoe 4 - Int.fdiv yoe 100 + doy
  era * 146097 + doe - 719468

/-- The English weekday name chrono's `format("%A")` yields
(1970-01-01 was a Thursday). -/
def weekdayName (y : Int) (m d : Nat) : String :=
  match Int.emod (daysFromCivil y m d + 4) 7 with
  | 0 => "Sunday"
  | 1 => "Monday"
  | 2 => "Tuesday"
  | 3 => "Wednesday"
  | 4 => "Thursday"
  | 5 => "Friday"
  | _ => "Saturday"

/-! ## The time_tree structures -/

structure Day where
  entries : List Entry
deriving DecidableEq

structure Month where
  days : List (Nat × Day)
deriving DecidableEq

structure Year where
  months : List (Nat × Month)
deriving DecidableEq

structure Root where
  years : List (Int × Year)
deriving DecidableEq

/-- Embedding of `Day::name_from`: `Utc.ymd` panics on an invalid date,
otherwise `%A` yields the weekday name. -/
def Day.name_from (y : Int) (m d : Nat) : Except String String :=
  if dateValid y m d then .ok (weekdayName y m d)
  else .error "invalid or out-of-range date"

/-- Embedding of `Month::name_from`; the `panic!("Bad month")` arm becomes
an error. -/
def Month.name_from (m : Nat) : Except String String :=
  match m with
  | 1 => .ok "January"
  | 2 => .ok "February"
  | 3 => .ok "March"
  | 4 => .ok "April"
  | 5 => .ok "May"
  | 6 => .ok "June"
  | 7 => .ok "July"
  | 8 => .ok "August"
  | 9 => .ok "September"
  | 10 => .ok "October"
  | 11 => .ok "November"
  | 12 => .ok "December"
  | _ => .error "Bad month"

/-- `HashMap::get` on the association-list representation. -/
def lookupA {κ α : Type} [DecidableEq κ] (k : κ) : List (κ × α) → Option α
  | [] => none
  | p :: rest => if p.1 = k then some p.2 else lookupA k rest

/-- `map.entry(k).or_insert(dflt)` followed by a mutation `f` of the chosen
slot. A fresh key is appended; the position is immaterial because the map's
iteration order is unspecified anyway. -/
def updateAssoc {κ α : Type} [DecidableEq κ] (k : κ) (dflt : α) (f : α → α) :
    List (κ × α) → List (κ × α)
  | [] => [(k, f dflt)]
  | p :: rest =>
    if k = p.1 then (p.1, f p.2) :: rest
    else p :: updateAssoc k dflt f rest

/-- Embedding of `Root::add_entry`. -/
def Root.addEntry (r : Root) (e : Entry) : Root :=
  { years :=
      updateAssoc e.year { months := [] }
        (fun yr =>
          { months :=
              updateAssoc e.month { days := [] }
                (fun mo =>
                  { days :=
                      updateAssoc e.day { entries := [] }
                        (fun dy => { entries := dy.entries ++ [e] })
                        mo.days })
                yr.months })
        r.years }

/-- Embedding of `Root::from`: fold the journal's entries, in order, into an
initially empty tree. (`from` is a Lean keyword, hence the name.) -/
def Root.fromJournal (j : Journal) : Root :=
  j.entries.foldl Root.addEntry { years := [] }

/-! ## The renderer (`Root::print`)

Output is modelled as the list of `println!` payloads, kept in segments: every
line is a `Seg.line`, except the block of property lines of one entry, which
is kept together as a `Seg.props` because the `HashMap` iteration order that
produces it is unspecified. Flattening the segments yields exactly the
printed lines. `σ` supplies the iteration order of each entry's properties
map: a run of the program corresponds to a `σ` that permutes each list. -/

inductive Seg where
  | line (s : String)
  | props (ls : List String)
deriving DecidableEq

def flattenSegs : List Seg → List String
  | [] => []
  | .line s :: rest => s :: flattenSegs rest
  | .props ls :: rest => ls ++ flattenSegs rest

/-- `match &entry.photos`: `photos[0]` panics on an empty vector. -/
def firstPhotoLink : Option (List Photo) → Except String (Option String)
  | some [] => .error "index out of bounds"
  | some (p :: _) => .ok (some p.link)
  | none => .ok none

def fmtProp (pv : String × String) : String :=
  ":" ++ pv.1 ++ ": " ++ pv.2

/-- The body of the per-entry loop of `Root::print`: the first-photo link
(may panic), the title heading with `"Empty"` fallback, the `:PROPERTIES:`
block in the map's iteration order `σ`, and the converted body. -/
def renderEntrySegs (conv : String → String)
    (σ : Entry → List (String × String) → List (String × String))
    (e : Entry) : Except String (List Seg) :=
  match firstPhotoLink e.photos with
  | .error s => .error s
  | .ok fp =>
    match e.properties with
    | .error s => .error s
    | .ok props =>
      .ok [Seg.line ("**** " ++ (e.title fp).getD "Empty"),
           Seg.line ":PROPERTIES:",
           Seg.props ((σ e props).map fmtProp),
           Seg.line ":END:",
           Seg.line ((e.body conv e.photos).getD "")]

def renderEntries (conv : String → String)
    (σ : Entry → List (String × String) → List (String × String)) :
    List Entry → Except String (List Seg)
  | [] => .ok []
  | e :: es =>
    match renderEntrySegs conv σ e with
    | .error s => .error s
    | .ok s1 =>
      match renderEntries conv σ es with
      | .error s => .error s
      | .ok s2 => .ok (s1 ++ s2)

def renderDaySegs (conv : String → String)
    (σ : Entry → List (String × String) → List (String × String))
    (y : Int) (m d : Nat) (dy : Day) : Except String (List Seg) :=
  match Day.name_from y m d with
  | .error s => .error s
  | .ok name =>
    match renderEntries conv σ dy.entries with
    | .error s => .error s
    | .ok segs =>
      .ok (Seg.line ("*** " ++ toString y ++ "-" ++ toString m ++ "-" ++
             toString d ++ " " ++ name) :: segs)

def sortKeysNat (l : List Nat) : List Nat :=
  List.insertionSort (fun a b : Nat => a ≤ b) l

def sortKeysInt (l : List Int) : List Int :=
  List.insertionSort (fun a b : Int => a ≤ b) l

/-- The day loop: sorted day numbers, `days.get(d).unwrap()`, then the day's
heading and entries. -/
def renderDayKeys (conv : String → String)
    (σ : Entry → List (String × String) → List (String × String))
    (y : Int) (m : Nat) (days : List (Nat × Day)) :
    List Nat → Except String (List Seg)
  | [] => .ok []
  | d :: ks =>
    match lookupA d days with
    | none => .error "unwrap on None"
    | some dy =>
      match renderDaySegs conv σ y m d dy with
      | .error s => .error s
      | .ok s1 =>
        match renderDayKeys conv σ y m days ks with
        | .error s => .error s
        | .ok s2 => .ok (s1 ++ s2)

def renderMonthSegs (conv : String → String)
    (σ : Entry → List (String × String) → List (String × String))
    (y : Int) (m : Nat) (mo : Month) : Except String (List Seg) :=
  match Month.name_from m with
  | .error s => .error s
  | .ok mname =>
    match renderDayKeys conv σ y m mo.days (sortKeysNat (mo.days.map Prod.fst)) with
    | .error s => .error s
    | .ok segs =>
      .ok (Seg.line ("** " ++ toString y ++ "-" ++ toString m ++ " " ++ mname)
            :: segs)

def renderMonthKeys (conv : String → String)
    (σ : Entry → List (String × String) → List (String × String))
    (y : Int) (months : List (Nat × Month)) :
    List Nat → Except String (List Seg)
  | [] => .ok []
  | m :: ks =>
    match lookupA m months with
    | none => .error "unwrap on None"
    | some mo =>
      match renderMonthSegs conv σ y m mo with
      | .error s => .error s
      | .ok s1 =>
        match renderMonthKeys conv σ y months ks with
        | .error s => .error s
        | .ok s2 => .ok (s1 ++ s2)

def renderYearSegs (conv : String → String)
    (σ : Entry → List (String × String) → List (String × String))
    (y : Int) (yr : Year) : Except String (List Seg) :=
  match renderMonthKeys conv σ y yr.months (sortKeysNat (yr.months.map Prod.fst)) with
  | .error s => .error s
  | .ok segs => .ok (Seg.line ("* " ++ toString y) :: segs)

def renderYearKeys (conv : String → String)
    (σ : Entry → List (String × String) → List (String × String))
    (years : List (Int × Year)) : List Int → Except String (List Seg)
  | [] => .ok []
  | y :: ks =>
    match lookupA y years with
    | none => .error "unwrap on None"
    | some yr =>
      match renderYearSegs conv σ y yr with
      | .error s => .error s
      | .ok s1 =>
        match renderYearKeys conv σ years ks with
        | .error s => .error s
        | .ok s2 => .ok (s1 ++ s2)

/-- Embedding of `Root::print`, producing the output in segments. -/
def Root.printSegs (conv : String → String)
    (σ : Entry → List (String × String) → List (String × String))
    (r : Root) : Except String (List Seg) :=
  renderYearKeys conv σ r.years (sortKeysInt (r.years.map Prod.fst))

/-- The byte stream of `Root::print`: each `println!` payload followed by a
newline. -/
def Root.printOut (conv : String → String)
    (σ : Entry → List (String × String) → List (String × String))
    (r : Root) : Except String String :=
  match Root.printSegs conv σ r with
  | .error s => .error s
  | .ok segs => .ok (String.join ((flattenSegs segs).map (fun l => l ++ "\n")))

/-! ## Derived views and relations used by the theorems -/

/-- All entries stored below one month node, in bucket order. -/
def Month.allEntries (mo : Month) : List Entry :=
  (mo.days.map (fun p => p.2.entries)).flatten

/-- All entries stored below one year node. -/
def Year.allEntries (yr : Year) : List Entry :=
  (yr.months.map (fun p => p.2.allEntries)).flatten

/-- All entries reachable by walking the tree. -/
def Root.allEntries (r : Root) : List Entry :=
  (r.years.map (fun p => p.2.allEntries)).flatten

/-- Every entry of the tree sits under the year/month/day keys of its own
creation date. -/
def Root.WellBucketed (r : Root) : Prop :=
  ∀ py ∈ r.years, ∀ pm ∈ py.2.months, ∀ pd ∈ pm.2.days, ∀ e ∈ pd.2.entries,
    e.year = py.1 ∧ e.month = pm.1 ∧ e.day = pd.1

def Month.KeysNodup (mo : Month) : Prop :=
  (mo.days.map Prod.fst).Nodup

def Year.KeysNodup (yr : Year) : Prop :=
  (yr.months.map Prod.fst).Nodup ∧ ∀ p ∈ yr.months, p.2.KeysNodup

def Root.KeysNodup (r : Root) : Prop :=
  (r.years.map Prod.fst).Nodup ∧ ∀ p ∈ r.years, p.2.KeysNodup

/-- Relate two optional values pointwise. -/
def optionRel {α : Type} (R : α → α → Prop) : Option α → Option α → Prop
  | none, none => True
  | some a, some b => R a b
  | _, _ => False

/-- Two association-list states of the same day `HashMap`: same key multiset,
same lookups. This captures every iteration order the unordered map may
present. -/
def MonthEquiv (a b : Month) : Prop :=
  List.Perm (a.days.map Prod.fst) (b.days.map Prod.fst) ∧
  ∀ k, lookupA k a.days = lookupA k b.days

def YearEquiv (a b : Year) : Prop :=
  List.Perm (a.months.map Prod.fst) (b.months.map Prod.fst) ∧
  ∀ k, optionRel MonthEquiv (lookupA k a.months) (lookupA k b.months)

def RootEquiv (a b : Root) : Prop :=
  List.Perm (a.years.map Prod.fst) (b.years.map Prod.fst) ∧
  ∀ k, optionRel YearEquiv (lookupA k a.years) (lookupA k b.years)

/-- Two output segments agree byte for byte, except that a properties block
may list its lines in a different order (equal as a multiset of lines). -/
def SegRel : Seg → Seg → Prop
  | .line s, .line t => s = t
  | .props ls, .props ms => List.Perm ls ms
  | _, _ => False

/-- Lift `SegRel` to whole runs: both abort identically, or both succeed
with pointwise related segments. -/
def ExceptSegsRel : Except String (List Seg) → Except String (List Seg) → Prop
  | .error s, .error t => s = t
  | .ok a, .ok b => List.Forall₂ SegRel a b
  | _, _ => False

/-! ## Concrete fixtures for examples, counterexamples and witnesses -/

/-- A deterministic stand-in for the external converter. -/
def convId : String → String := fun s => s

/-- The identity iteration order of a properties map. -/
def sigId : Entry → List (String × String) → List (String × String) :=
  fun _ l => l

/-- A reversed iteration order of a properties map. -/
def sigRev : Entry → List (String × String) → List (String × String) :=
  fun _ l => l.reverse

def dateW : UtcDate := ⟨2021, 3, 5, 10, 0, 0⟩

def phB : Photo := ⟨"b66", "jpg", 2⟩

def phA : Photo := ⟨"a55", "png", 1⟩

def entryC2 : Entry :=
  ⟨dateW, some "![](dayone-moment://X)", none, none, none, some [phB, phA]⟩

def ph1 : Photo := ⟨"h1", "png", 1⟩

def ph2 : Photo := ⟨"h2", "jpg", 2⟩

def convC3 : String → String :=
  fun _ => "l1\nl2\nl3\nl4\nsee [[dayone-moment://A]] and [[dayone-moment://B]]"

def entryC3 : Entry := ⟨dateW, some "x", none, none, none, none⟩

def entryC4 : Entry :=
  ⟨dateW, none, some ⟨⟨"-0.12"⟩, ⟨"51.5"⟩, "London"⟩,
    some ⟨some "Cloudy", some "full"⟩, some ⟨"Boards of Canada", "Roygbiv"⟩,
    none⟩

/-- The property set claim C4 predicts (real emoji, real em-dash). -/
def claimedC4 : List (String × String) :=
  [("Moon", "🌕"), ("Weather", "Cloudy"),
   ("Music", "Boards of Canada — Roygbiv"),
   ("Latitude", "51.5"), ("Longitude", "-0.12"), ("Location", "London")]

/-- The property list the code computes (source literals reproduced
codepoint for codepoint). -/
def actualC4 : List (String × String) :=
  [("Moon", "ðŸŒ•"), ("Weather", "Cloudy"),
   ("Music", "Boards of Canada â€” Roygbiv"),
   ("Latitude", "51.5"), ("Longitude", "-0.12"), ("Location", "London")]

/-- `actualC4` in a scrambled order, for the order-independent comparison. -/
def amendedSetC4 : List (String × String) :=
  [("Location", "London"), ("Weather", "Cloudy"), ("Moon", "ðŸŒ•"),
   ("Longitude", "-0.12"), ("Music", "Boards of Canada â€” Roygbiv"),
   ("Latitude", "51.5")]

def entryAllAbsent : Entry := ⟨dateW, none, none, none, none, none⟩

def entryMusicOnly : Entry :=
  ⟨dateW, none, none, none, some ⟨"a", "t"⟩, none⟩

def entryC5a : Entry :=
  ⟨dateW, some "### Morning walk\nrest of text", none, none, none, none⟩

def entryC5b : Entry := ⟨dateW, some "plain line", none, none, none, none⟩

def entryC5c : Entry :=
  ⟨dateW, some "![](dayone-moment://ABC)", none, none, none, none⟩

def entryC6 : Entry :=
  ⟨dateW, some "hi", none, some ⟨none, some "eclipse"⟩, none, none⟩

def journalC6 : Journal := ⟨⟨"1.0"⟩, [entryC6]⟩

def convC7 : String → String := fun _ => "l1\nl2\nl3\nl4\ne5\ne6"

def entryC7 : Entry := ⟨dateW, some "x", none, none, none, none⟩

def entryC10 : Entry := ⟨dateW, some "hi", none, none, none, some []⟩

def journalC10 : Journal := ⟨⟨"1.0"⟩, [entryC10]⟩

def entryC10b : Entry := ⟨dateW, some "hi", none, none, none, none⟩

def journalC10b : Journal := ⟨⟨"1.0"⟩, [entryC10b]⟩

def entryW : Entry := ⟨dateW, none, none, none, none, none⟩

def journalW : Journal := ⟨⟨"1.0"⟩, [entryW]⟩

def dayW : Day := ⟨[entryW]⟩

def monthW : Month := ⟨[(5, dayW)]⟩

def yearW : Year := ⟨[(3, monthW)]⟩

/-- Two states of the same two-year tree whose year list is presented in the
two possible orders. -/
def rootWa : Root := ⟨[(2021, yearW), (2020, yearW)]⟩

def rootWb : Root := ⟨[(2020, yearW), (2021, yearW)]⟩

/-! ## Lemmas about updateAssoc, for the time-tree claims -/

theorem mem_updateAssoc {κ α : Type} [DecidableEq κ] (k : κ) (dflt : α) (u : α → α)
    (l : List (κ × α)) (p : κ × α) (hp : p ∈ updateAssoc k dflt u l) :
    p ∈ l ∨ (p.1 = k ∧ (p.2 = u dflt ∨ ∃ v, (k, v) ∈ l ∧ p.2 = u v)) := by
  induction l with
  | nil =>
    simp only [updateAssoc, List.mem_singleton] at hp
    subst hp
    exact Or.inr ⟨rfl, Or.inl rfl⟩
  | cons q rest ih =>
    simp only [updateAssoc] at hp
    by_cases hk : k = q.1
    · rw [if_pos hk] at hp
      rcases List.mem_cons.mp hp with h | h
      · refine Or.inr ⟨?_, Or.inr ⟨q.2, ?_, ?_⟩⟩
        · rw [h]; exact hk.symm
        · rw [hk]; exact List.mem_cons_self q rest
        · rw [h]
      · exact Or.inl (List.mem_cons_of_mem q h)
    · rw [if_neg hk] at hp
      rcases List.mem_cons.mp hp with h | h
      · exact Or.inl (List.mem_cons.mpr (Or.inl h))
      · rcases ih h with h2 | ⟨h2a, h2b⟩
        · exact Or.inl (List.mem_cons_of_mem q h2)
        · refine Or.inr ⟨h2a, ?_⟩
          rcases h2b with h3 | ⟨v, hv, h3⟩
          · exact Or.inl h3
          · exact Or.inr ⟨v, List.mem_cons_of_mem q hv, h3⟩

/-- Pointwise properties survive an `updateAssoc` when they hold of the old
bindings, of the freshly created binding, and of every updated binding. -/
theorem updateAssoc_forall {κ α : Type} [DecidableEq κ] {P : κ → α → Prop}
    (k : κ) (dflt : α) (u : α → α) (l : List (κ × α))
    (hl : ∀ p ∈ l, P p.1 p.2) (hd : P k (u dflt))
    (hu : ∀ v, (k, v) ∈ l → P k (u v)) :
    ∀ p ∈ updateAssoc k dflt u l, P p.1 p.2 := by
  intro p hp
  rcases mem_updateAssoc k dflt u l p hp with h | ⟨h1, h2⟩
  · exact hl p h
  · rcases h2 with h2 | ⟨v, hv, h2⟩
    · rw [h1, h2]; exact hd
    · rw [h1, h2]; exact hu v hv

theorem mem_keys_updateAssoc {κ α : Type} [DecidableEq κ] (k x : κ) (dflt : α)
    (u : α → α) (l : List (κ × α)) :
    x ∈ (updateAssoc k dflt u l).map Prod.fst ↔
      x ∈ l.map Prod.fst ∨ x = k := by
  induction l with
  | nil => simp [updateAssoc]
  | cons q rest ih =>
    by_cases hk : k = q.1
    · simp only [updateAssoc, if_pos hk, List.map_cons, List.mem_cons]
      constructor
      · rintro (h | h)
        · exact Or.inl (Or.inl h)
        · exact Or.inl (Or.inr h)
      · rintro ((h | h) | h)
        · exact Or.inl h
        · exact Or.inr h
        · exact Or.inl (h.trans hk)
    · simp only [updateAssoc, if_neg hk, List.map_cons, List.mem_cons, ih]
      tauto

theorem nodup_keys_updateAssoc {κ α : Type} [DecidableEq κ] (k : κ) (dflt : α)
    (u : α → α) (l : List (κ × α)) (h : (l.map Prod.fst).Nodup) :
    ((updateAssoc k dflt u l).map Prod.fst).Nodup := by
  induction l with
  | nil => simp [updateAssoc]
  | cons q rest ih =>
    rw [List.map_cons, List.nodup_cons] at h
    by_cases hk : k = q.1
    · simp only [updateAssoc, if_pos hk, List.map_cons, List.nodup_cons]
      exact ⟨h.1, h.2⟩
    · simp only [updateAssoc, if_neg hk, List.map_cons, List.nodup_cons]
      refine ⟨?_, ih h.2⟩
      intro hc
      rcases (mem_keys_updateAssoc k q.1 dflt u rest).mp hc with hc | hc
      · exact h.1 hc
      · exact hk hc.symm

/-- Generic counting lemma: if updating a slot prepends exactly the new
entry to the slot's contents (up to permutation) and an absent slot starts
empty, then updating the map prepends exactly the new entry to the flattened
contents. -/
theorem updateAssoc_flatten_perm {κ α : Type} [DecidableEq κ] (k : κ) (dflt : α)
    (u : α → α) (g : α → List Entry) (e : Entry) (h0 : g dflt = [])
    (h1 : ∀ v, List.Perm (g (u v)) (e :: g v)) (l : List (κ × α)) :
    List.Perm ((updateAssoc k dflt u l).map (fun p => g p.2)).flatten
      (e :: (l.map (fun p => g p.2)).flatten) := by
  induction l with
  | nil =>
    have h := h1 dflt
    rw [h0] at h
    simpa [updateAssoc] using h
  | cons q rest ih =>
    by_cases hk : k = q.1
    · simp only [updateAssoc, if_pos hk, List.map_cons, List.flatten_cons]
      exact (h1 q.2).append_right _
    · simp only [updateAssoc, if_neg hk, List.map_cons, List.flatten_cons]
      exact (ih.append_left (g q.2)).trans List.perm_middle

/-! ## The time-tree invariants of claim C1 -/

theorem addEntry_allEntries_perm (r : Root) (e : Entry) :
    List.Perm (r.addEntry e).allEntries (e :: r.allEntries) := by
  simp only [Root.addEntry, Root.allEntries]
  refine updateAssoc_flatten_perm _ _ _ Year.allEntries _ ?_ (fun yr => ?_) _
  · rfl
  · simp only [Year.allEntries]
    refine updateAssoc_flatten_perm _ _ _ Month.allEntries _ ?_ (fun mo => ?_) _
    · rfl
    · simp only [Month.allEntries]
      refine updateAssoc_flatten_perm _ _ _ (fun d : Day => d.entries) _ ?_ ?_ _
      · rfl
      · exact fun dy => List.perm_append_singleton e dy.entries

theorem foldl_allEntries_perm (es : List Entry) : ∀ r : Root,
    List.Perm (es.foldl Root.addEntry r).allEntries (r.allEntries ++ es) := by
  induction es with
  | nil => intro r; simp
  | cons e es ih =>
    intro r
    have h1 := ih (r.addEntry e)
    have h2 : List.Perm ((r.addEntry e).allEntries ++ es)
        ((e :: r.allEntries) ++ es) :=
      (addEntry_allEntries_perm r e).append_right es
    exact h1.trans (h2.trans List.perm_middle.symm)

/-- Day-level step of the bucketing invariant. -/
theorem addEntry_dayLevel (e : Entry) (days : List (Nat × Day))
    (hOld : ∀ pd ∈ days, ∀ e' ∈ pd.2.entries,
      e'.year = e.year ∧ e'.month = e.month ∧ e'.day = pd.1) :
    ∀ pd ∈ updateAssoc e.day (Day.mk [])
        (fun dy => Day.mk (dy.entries ++ [e])) days,
      ∀ e' ∈ pd.2.entries,
        e'.year = e.year ∧ e'.month = e.month ∧ e'.day = pd.1 := by
  rintro ⟨d, dy⟩ hpd e' he'
  rcases mem_updateAssoc _ _ _ _ _ hpd with hold | ⟨hk, hv⟩
  · exact hOld (d, dy) hold e' he'
  · have hd : d = e.day := hk
    subst hd
    rcases hv with hv | ⟨w, hw, hv⟩
    · have hdy : dy = Day.mk ([] ++ [e]) := hv
      subst hdy
      simp only [List.nil_append, List.mem_singleton] at he'
      subst he'
      exact ⟨rfl, rfl, rfl⟩
    · have hdy : dy = Day.mk (w.entries ++ [e]) := hv
      subst hdy
      rcases List.mem_append.mp he' with h' | h'
      · exact hOld (e.day, w) hw e' h'
      · rw [List.mem_singleton] at h'
        subst h'
        exact ⟨rfl, rfl, rfl⟩

/-- Month-level step of the bucketing invariant. -/
theorem addEntry_monthLevel (e : Entry) (months : List (Nat × Month))
    (hOld : ∀ pm ∈ months, ∀ pd ∈ pm.2.days, ∀ e' ∈ pd.2.entries,
      e'.year = e.year ∧ e'.month = pm.1 ∧ e'.day = pd.1) :
    ∀ pm ∈ updateAssoc e.month (Month.mk [])
        (fun mo => Month.mk (updateAssoc e.day (Day.mk [])
          (fun dy => Day.mk (dy.entries ++ [e])) mo.days)) months,
      ∀ pd ∈ pm.2.days, ∀ e' ∈ pd.2.entries,
        e'.year = e.year ∧ e'.month = pm.1 ∧ e'.day = pd.1 := by
  rintro ⟨m, mo⟩ hpm pd hpd e' he'
  rcases mem_updateAssoc _ _ _ _ _ hpm with hold | ⟨hk, hv⟩
  · exact hOld (m, mo) hold pd hpd e' he'
  · have hm : m = e.month := hk
    subst hm
    rcases hv with hv | ⟨w, hw, hv⟩
    · have hmo : mo = Month.mk (updateAssoc e.day (Day.mk [])
          (fun dy => Day.mk (dy.entries ++ [e])) []) := hv
      subst hmo
      refine addEntry_dayLevel e [] ?_ pd hpd e' he'
      intro pd' hpd'
      simp at hpd'
    · have hmo : mo = Month.mk (updateAssoc e.day (Day.mk [])
          (fun dy => Day.mk (dy.entries ++ [e])) w.days) := hv
      subst hmo
      refine addEntry_dayLevel e w.days ?_ pd hpd e' he'
      intro pd' hpd' e'' he''
      exact hOld (e.month, w) hw pd' hpd' e'' he''

theorem addEntry_wellBucketed (r : Root) (e : Entry) (h : r.WellBucketed) :
    (r.addEntry e).WellBucketed := by
  rintro ⟨y, yr⟩ hpy pm hpm pd hpd e' he'
  rcases mem_updateAssoc _ _ _ _ _ hpy with hold | ⟨hk, hv⟩
  · exact h (y, yr) hold pm hpm pd hpd e' he'
  · have hy : y = e.year := hk
    subst hy
    rcases hv with hv | ⟨v, hvmem, hv⟩
    · have hyr : yr = Year.mk (updateAssoc e.month (Month.mk [])
          (fun mo => Month.mk (updateAssoc e.day (Day.mk [])
            (fun dy => Day.mk (dy.entries ++ [e])) mo.days)) []) := hv
      subst hyr
      refine addEntry_monthLevel e [] ?_ pm hpm pd hpd e' he'
      intro pm' hpm'
      simp at hpm'
    · have hyr : yr = Year.mk (updateAssoc e.month (Month.mk [])
          (fun mo => Month.mk (updateAssoc e.day (Day.mk [])
            (fun dy => Day.mk (dy.entries ++ [e])) mo.days)) v.months) := hv
      subst hyr
      refine addEntry_monthLevel e v.months ?_ pm hpm pd hpd e' he'
      intro pm' hpm' pd' hpd' e'' he''
      exact h (e.year, v) hvmem pm' hpm' pd' hpd' e'' he''

theorem addEntry_keysNodup (r : Root) (e : Entry) (h : r.KeysNodup) :
    (r.addEntry e).KeysNodup := by
  constructor
  · exact nodup_keys_updateAssoc _ _ _ _ h.1
  · rintro ⟨y, yr⟩ hpy
    rcases mem_updateAssoc _ _ _ _ _ hpy with hold | ⟨hk, hv⟩
    · exact h.2 (y, yr) hold
    · rcases hv with hv | ⟨v, hvmem, hv⟩
      · have hyr : yr = Year.mk (updateAssoc e.month (Month.mk [])
            (fun mo => Month.mk (updateAssoc e.day (Day.mk [])
              (fun dy => Day.mk (dy.entries ++ [e])) mo.days)) []) := hv
        subst hyr
        constructor
        · simp [updateAssoc]
        · rintro ⟨m, mo⟩ hpm
          simp only [updateAssoc, List.mem_singleton, Prod.mk.injEq] at hpm
          have hmo := hpm.2
          subst hmo
          simp [Month.KeysNodup, updateAssoc]
      · have hyr : yr = Year.mk (updateAssoc e.month (Month.mk [])
            (fun mo => Month.mk (updateAssoc e.day (Day.mk [])
              (fun dy => Day.mk (dy.entries ++ [e])) mo.days)) v.months) := hv
        subst hyr
        have hvKN := h.2 (e.year, v) hvmem
        constructor
        · exact nodup_keys_updateAssoc _ _ _ _ hvKN.1
        · rintro ⟨m, mo⟩ hpm
          rcases mem_updateAssoc _ _ _ _ _ hpm with hold2 | ⟨hk2, hv2⟩
          · exact hvKN.2 (m, mo) hold2
          · rcases hv2 with hv2 | ⟨w, hwmem, hv2⟩
            · have hmo : mo = Month.mk (updateAssoc e.day (Day.mk [])
                  (fun dy => Day.mk (dy.entries ++ [e])) []) := hv2
              subst hmo
              simp [Month.KeysNodup, updateAssoc]
            · have hmo : mo = Month.mk (updateAssoc e.day (Day.mk [])
                  (fun dy => Day.mk (dy.entries ++ [e])) w.days) := hv2
              subst hmo
              exact nodup_keys_updateAssoc _ _ _ _ (hvKN.2 (e.month, w) hwmem)

theorem foldl_wellBucketed (es : List Entry) : ∀ r : Root,
    r.WellBucketed → (es.foldl Root.addEntry r).WellBucketed := by
  induction es with
  | nil => intro r h; exact h
  | cons e es ih =>
    intro r h
    exact ih (r.addEntry e) (addEntry_wellBucketed r e h)

theorem foldl_keysNodup (es : List Entry) : ∀ r : Root,
    r.KeysNodup → (es.foldl Root.addEntry r).KeysNodup := by
  induction es with
  | nil => intro r h; exact h
  | cons e es ih =>
    intro r h
    exact ih (r.addEntry e) (addEntry_keysNodup r e h)

/-- Claim C1: walking the time tree built from a journal yields exactly the
journal's entries up to permutation (none dropped, none duplicated), every
entry sits in the day bucket keyed by its creation date's UTC year, month
and day, and at every level the bucket keys are pairwise distinct, so that
bucket is unique. -/
theorem C1_tree_partition (j : Journal) :
    List.Perm (Root.fromJournal j).allEntries j.entries ∧
    (Root.fromJournal j).WellBucketed ∧
    (Root.fromJournal j).KeysNodup := by
  refine ⟨?_, ?_, ?_⟩
  · have h := foldl_allEntries_perm j.entries { years := [] }
    simpa [Root.allEntries] using h
  · refine foldl_wellBucketed j.entries { years := [] } ?_
    intro py hpy
    simp at hpy
  · refine foldl_keysNodup j.entries { years := [] } ?_
    constructor
    · simp
    · intro p hp
      simp at hp

/-- Witness for C1: the singleton journal lands its entry in the
2021/3/5 bucket and the walked tree is a permutation of the input. -/
theorem C1_tree_partition_witness :
    List.Perm (Root.fromJournal journalW).allEntries journalW.entries ∧
    (entryW.year = 2021 ∧ entryW.month = 3 ∧ entryW.day = 5) :=
  ⟨(C1_tree_partition journalW).1,
   (C1_tree_partition journalW).2.1 (2021, yearW) (by decide) (3, monthW)
     (by decide) (5, dayW) (by decide) entryW (by decide)⟩

/-! ## Claims about the derivation functions -/

/-- Claim C3: with a supplied photo list, `body()` sorts the photos by
`order_in_entry` ascending and pairs them with the placeholders in
left-to-right scan order: for two photos with `order_in_entry` 2 and 1 and
two placeholders, the first placeholder receives the link of the photo with
`order_in_entry` 1 and the second that with `order_in_entry` 2, whichever
way round the input array lists the photos; each replacement is the link
`[[./images/{md5}.{type}]]`. -/
theorem C3_photo_placeholder_pairing :
    Entry.body convC3 entryC3 (some [ph2, ph1]) =
      some "see [[./images/h1.png]] and [[./images/h2.jpg]]" ∧
    Entry.body convC3 entryC3 (some [ph1, ph2]) =
      some "see [[./images/h1.png]] and [[./images/h2.jpg]]" ∧
    sortPhotos [ph2, ph1] = [ph1, ph2] ∧
    ph1.link = "[[./images/h1.png]]" ∧
    ph2.link = "[[./images/h2.jpg]]" := by
  decide

/-- Claim C4 counterexample: on the entry of the claim the code computes the
Music value with the source's literal separator (U+00E2 U+20AC U+201D, a
double-encoded em-dash) and the Moon value as the source's literal glyph
string (U+00F0 U+0178 U+0152 U+2022, a double-encoded full-moon emoji), so
the computed pair list is NOT a permutation of the claimed set, whose values
carry the true em-dash and emoji. -/
theorem C4_counterexample :
    Entry.properties entryC4 = .ok actualC4 ∧
    ¬ List.Perm actualC4 claimedC4 := by
  decide

/-- Claim C4 amended: `properties()` yields exactly the six keys of the
claim, order-independently, with Weather/Latitude/Longitude/Location as
claimed, but with the Moon and Music values spelled with the source file's
double-encoded glyph and separator characters; keys of absent sub-records
are absent from the mapping. -/
theorem C4_properties_set :
    Entry.properties entryC4 = .ok actualC4 ∧
    List.Perm actualC4 amendedSetC4 ∧
    Entry.properties entryAllAbsent = .ok [] ∧
    Entry.properties entryMusicOnly = .ok [("Music", "a" ++ musicSep ++ "t")] := by
  decide

/-- Claim C2 counterexample: for photos listed as `[phB, phA]` with
`order_in_entry` 2 and 1, the renderer supplies `title()` with the link of
`phB` — the photo at array position 0 — although the first photo by
ascending `order_in_entry` is `phA`, whose link differs; the title heading
of the rendered entry carries `phB`'s link. -/
theorem C2_counterexample :
    firstPhotoLink (some [phB, phA]) = .ok (some "[[./images/b66.jpg]]") ∧
    sortPhotos [phB, phA] = [phA, phB] ∧
    phA.link = "[[./images/a55.png]]" ∧
    "[[./images/b66.jpg]]" ≠ "[[./images/a55.png]]" ∧
    renderEntrySegs convId sigId entryC2 =
      .ok [Seg.line "**** [[./images/b66.jpg]]", Seg.line ":PROPERTIES:",
           Seg.props [], Seg.line ":END:", Seg.line ""] := by
  decide

/-- Claim C2 amended: the renderer supplies `title()` with the rendered link
of the photo at position 0 of the entry's photos array — not the least
`order_in_entry` — and omits the link when the photos field is absent. -/
theorem C2_first_photo_by_position (ph : List Photo) (p : Photo)
    (h : ph.head? = some p) :
    firstPhotoLink (some ph) = .ok (some p.link) ∧
    firstPhotoLink none = .ok none := by
  cases ph with
  | nil => simp at h
  | cons q rest =>
    simp at h
    subst h
    exact ⟨rfl, rfl⟩

/-- Witness for the amended C2 at a concrete photo list. -/
theorem C2_first_photo_by_position_witness :
    firstPhotoLink (some [phB, phA]) = .ok (some phB.link) ∧
    firstPhotoLink none = .ok none :=
  C2_first_photo_by_position [phB, phA] phB (by decide)

/-- Claim C5: `title()` takes the first line of the text, strips one leading
run of `#` characters followed by a whitespace, substitutes a supplied first
photo link for the photo placeholder, and is `none` when the text is absent
or empty; in particular the two examples of the claim hold. -/
theorem C5_title :
    (∀ (cd : UtcDate) loc w mu ph fl,
      Entry.title ⟨cd, none, loc, w, mu, ph⟩ fl = none) ∧
    (∀ (cd : UtcDate) loc w mu ph fl,
      Entry.title ⟨cd, some "", loc, w, mu, ph⟩ fl = none) ∧
    Entry.title entryC5a none = some "Morning walk" ∧
    Entry.title entryC5b none = some "plain line" ∧
    Entry.title entryC5c (some "[[./images/abc123.jpg]]") =
      some "[[./images/abc123.jpg]]" := by
  refine ⟨fun cd loc w mu ph fl => rfl, fun cd loc w mu ph fl => rfl, ?_, ?_, ?_⟩
  · decide
  · decide
  · decide

/-- Claim C6: a `moon_phase_code` outside the eight-identifier enumeration,
such as `eclipse`, makes `properties()` abort with the `fake moon` panic,
and the whole rendering run aborts with it too; the Moon key is not silently
omitted. -/
theorem C6_unknown_moon_fatal :
    get_moon "eclipse" = .error "fake moon" ∧
    Entry.properties entryC6 = .error "fake moon" ∧
    Root.printSegs convId sigId (Root.fromJournal journalC6) =
      .error "fake moon" := by
  decide

/-- Claim C7: `body()` is `none` when the text is absent; otherwise it drops
exactly the first four lines of the converter's output, joins the remaining
lines with newlines, and only then applies the photo substitution. -/
theorem C7_body_conversion (conv : String → String) (e : Entry) :
    (e.text = none → ∀ ph, e.body conv ph = none) ∧
    (∀ t ph, e.text = some t →
      e.body conv ph =
        some (applyPhotoSubst ph (joinNl ((rustLines (conv t)).drop 4)))) := by
  constructor
  · intro h ph
    unfold Entry.body
    rw [h]
  · intro t ph h
    unfold Entry.body
    rw [h]

/-- Witness for C7 at a concrete converter and entry: four boilerplate
lines dropped, the rest joined; an absent text yields no body. -/
theorem C7_body_conversion_witness :
    Entry.body convC7 entryC7 none = some "e5\ne6" ∧
    Entry.body convC7 entryAllAbsent none = none :=
  ⟨((C7_body_conversion convC7 entryC7).2 "x" none rfl).trans (by decide),
   (C7_body_conversion convC7 entryAllAbsent).1 rfl none⟩

/-- Claim C10: a present-but-empty photos list makes the renderer index
element 0 of the empty vector, aborting the run, while the same entry with
the photos field absent renders fine — `Some([])` is not treated like an
absent field. -/
theorem C10_empty_photos_fatal :
    firstPhotoLink (some []) = .error "index out of bounds" ∧
    Root.printSegs convId sigId (Root.fromJournal journalC10) =
      .error "index out of bounds" ∧
    Root.printSegs convId sigId (Root.fromJournal journalC10b) =
      .ok [Seg.line "* 2021", Seg.line "** 2021-3 March",
           Seg.line "*** 2021-3-5 Friday", Seg.line "**** hi",
           Seg.line ":PROPERTIES:", Seg.props [], Seg.line ":END:",
           Seg.line ""] := by
  decide

/-! ## Renderer congruence under bucket-map reordering (claim C8) -/

theorem sortKeysNat_eq_of_perm (a b : List Nat) (h : List.Perm a b) :
    sortKeysNat a = sortKeysNat b :=
  List.eq_of_perm_of_sorted
    ((List.perm_insertionSort _ a).trans (h.trans (List.perm_insertionSort _ b).symm))
    (List.sorted_insertionSort _ a) (List.sorted_insertionSort _ b)

theorem sortKeysInt_eq_of_perm (a b : List Int) (h : List.Perm a b) :
    sortKeysInt a = sortKeysInt b :=
  List.eq_of_perm_of_sorted
    ((List.perm_insertionSort _ a).trans (h.trans (List.perm_insertionSort _ b).symm))
    (List.sorted_insertionSort _ a) (List.sorted_insertionSort _ b)

theorem renderDayKeys_congr (conv : String → String)
    (σ : Entry → List (String × String) → List (String × String))
    (y : Int) (m : Nat) (d1 d2 : List (Nat × Day))
    (h : ∀ k, lookupA k d1 = lookupA k d2) :
    ∀ ks, renderDayKeys conv σ y m d1 ks = renderDayKeys conv σ y m d2 ks := by
  intro ks
  induction ks with
  | nil => rfl
  | cons d ks ih => simp only [renderDayKeys, h d, ih]

theorem renderMonthSegs_congr (conv : String → String)
    (σ : Entry → List (String × String) → List (String × String))
    (y : Int) (m : Nat) (a b : Month) (h : MonthEquiv a b) :
    renderMonthSegs conv σ y m a = renderMonthSegs conv σ y m b := by
  unfold renderMonthSegs
  rw [sortKeysNat_eq_of_perm _ _ h.1,
    renderDayKeys_congr conv σ y m a.days b.days h.2]

theorem renderMonthKeys_congr (conv : String → String)
    (σ : Entry → List (String × String) → List (String × String))
    (y : Int) (m1 m2 : List (Nat × Month))
    (h : ∀ k, optionRel MonthEquiv (lookupA k m1) (lookupA k m2)) :
    ∀ ks, renderMonthKeys conv σ y m1 ks = renderMonthKeys conv σ y m2 ks := by
  intro ks
  induction ks with
  | nil => rfl
  | cons m ks ih =>
    have hm := h m
    cases hA : lookupA m m1 with
    | none =>
      cases hB : lookupA m m2 with
      | none => simp only [renderMonthKeys, hA, hB, ih]
      | some b =>
        rw [hA, hB] at hm
        have hc : False := hm
        exact hc.elim
    | some a =>
      cases hB : lookupA m m2 with
      | none =>
        rw [hA, hB] at hm
        have hc : False := hm
        exact hc.elim
      | some b =>
        rw [hA, hB] at hm
        have hab : MonthEquiv a b := hm
        simp only [renderMonthKeys, hA, hB, ih,
          renderMonthSegs_congr conv σ y m a b hab]

theorem renderYearSegs_congr (conv : String → String)
    (σ : Entry → List (String × String) → List (String × String))
    (y : Int) (a b : Year) (h : YearEquiv a b) :
    renderYearSegs conv σ y a = renderYearSegs conv σ y b := by
  unfold renderYearSegs
  rw [sortKeysNat_eq_of_perm _ _ h.1,
    renderMonthKeys_congr conv σ y a.months b.months h.2]

theorem renderYearKeys_congr (conv : String → String)
    (σ : Entry → List (String × String) → List (String × String))
    (y1 y2 : List (Int × Year))
    (h : ∀ k, optionRel YearEquiv (lookupA k y1) (lookupA k y2)) :
    ∀ ks, renderYearKeys conv σ y1 ks = renderYearKeys conv σ y2 ks := by
  intro ks
  induction ks with
  | nil => rfl
  | cons y ks ih =>
    have hy := h y
    cases hA : lookupA y y1 with
    | none =>
      cases hB : lookupA y y2 with
      | none => simp only [renderYearKeys, hA, hB, ih]
      | some b =>
        rw [hA, hB] at hy
        have hc : False := hy
        exact hc.elim
    | some a =>
      cases hB : lookupA y y2 with
      | none =>
        rw [hA, hB] at hy
        have hc : False := hy
        exact hc.elim
      | some b =>
        rw [hA, hB] at hy
        have hab : YearEquiv a b := hy
        simp only [renderYearKeys, hA, hB, ih,
          renderYearSegs_congr conv σ y a b hab]

theorem printSegs_congr (conv : String → String)
    (σ : Entry → List (String × String) → List (String × String))
    (a b : Root) (h : RootEquiv a b) :
    Root.printSegs conv σ a = Root.printSegs conv σ b := by
  unfold Root.printSegs
  rw [sortKeysInt_eq_of_perm _ _ h.1,
    renderYearKeys_congr conv σ a.years b.years h.2]

theorem renderEntries_append (conv : String → String)
    (σ : Entry → List (String × String) → List (String × String))
    (es1 es2 : List Entry) :
    renderEntries conv σ (es1 ++ es2) =
      (match renderEntries conv σ es1 with
       | .error s => .error s
       | .ok a =>
         match renderEntries conv σ es2 with
         | .error s => .error s
         | .ok b => .ok (a ++ b)) := by
  induction es1 with
  | nil => cases h : renderEntries conv σ es2 <;> simp [renderEntries, h]
  | cons e es ih =>
    cases h1 : renderEntrySegs conv σ e with
    | error s => simp [renderEntries, h1]
    | ok s1 =>
      cases h2 : renderEntries conv σ es with
      | error s => simp [renderEntries, h1, h2, ih]
      | ok a =>
        cases h3 : renderEntries conv σ es2 with
        | error s => simp [renderEntries, h1, h2, h3, ih]
        | ok b => simp [renderEntries, h1, h2, h3, ih]

theorem monthEquiv_refl (m : Month) : MonthEquiv m m :=
  ⟨List.Perm.refl _, fun _ => rfl⟩

theorem yearEquiv_refl (y : Year) : YearEquiv y y := by
  refine ⟨List.Perm.refl _, fun k => ?_⟩
  cases lookupA k y.months with
  | none => exact trivial
  | some m => exact monthEquiv_refl m

/-- The two presentations `rootWa`/`rootWb` of the same tree are states of
the same unordered map. -/
theorem rootEquiv_wa_wb : RootEquiv rootWa rootWb := by
  constructor
  · decide
  · intro k
    by_cases h1 : k = 2021
    · subst h1
      exact yearEquiv_refl yearW
    · by_cases h2 : k = 2020
      · subst h2
        exact yearEquiv_refl yearW
      · have n1 : ¬ ((2021 : Int) = k) := fun h => h1 h.symm
        have n2 : ¬ ((2020 : Int) = k) := fun h => h2 h.symm
        have e1 : lookupA k rootWa.years = none := by
          simp [rootWa, lookupA, n1, n2]
        have e2 : lookupA k rootWb.years = none := by
          simp [rootWb, lookupA, n1, n2]
        rw [e1, e2]
        exact trivial

/-- Claim C8: rendering is a function of the tree's contents alone — any
reordering of the unordered year/month/day bucket maps leaves the output
unchanged; the key sequences the renderer walks are sorted ascending at
every level; rendering a day's entry list distributes over concatenation,
so entries come out in arrival order; and an entry whose title is `none` is
headed by the literal `**** Empty` line. -/
theorem C8_render_order (conv : String → String)
    (σ : Entry → List (String × String) → List (String × String)) :
    (∀ a b : Root, RootEquiv a b →
      Root.printSegs conv σ a = Root.printSegs conv σ b) ∧
    (∀ l : List Int, List.Sorted (fun a b : Int => a ≤ b) (sortKeysInt l)) ∧
    (∀ l : List Nat, List.Sorted (fun a b : Nat => a ≤ b) (sortKeysNat l)) ∧
    (∀ es1 es2 : List Entry, renderEntries conv σ (es1 ++ es2) =
      (match renderEntries conv σ es1 with
       | .error s => .error s
       | .ok a =>
         match renderEntries conv σ es2 with
         | .error s => .error s
         | .ok b => .ok (a ++ b))) ∧
    (∀ (e : Entry) (fp : Option String) (segs : List Seg),
      firstPhotoLink e.photos = .ok fp → e.title fp = none →
      renderEntrySegs conv σ e = .ok segs →
      segs.head? = some (Seg.line "**** Empty")) := by
  refine ⟨printSegs_congr conv σ, fun l => List.sorted_insertionSort _ l,
    fun l => List.sorted_insertionSort _ l, renderEntries_append conv σ, ?_⟩
  intro e fp segs h1 h2 h3
  unfold renderEntrySegs at h3
  rw [h1] at h3
  cases hp : e.properties with
  | error s =>
    rw [hp] at h3
    cases h3
  | ok props =>
    rw [hp] at h3
    injection h3 with h4
    subst h4
    simp [h2]

/-- Witness for C8: the two presentations of the two-year tree print the
same segments, and a title-less entry's first rendered line is `Empty`. -/
theorem C8_render_order_witness :
    Root.printSegs convId sigId rootWa = Root.printSegs convId sigId rootWb ∧
    [Seg.line "**** Empty", Seg.line ":PROPERTIES:", Seg.props [],
      Seg.line ":END:", Seg.line ""].head? = some (Seg.line "**** Empty") :=
  ⟨(C8_render_order convId sigId).1 rootWa rootWb rootEquiv_wa_wb,
   (C8_render_order convId sigId).2.2.2.2 entryW none
     [Seg.line "**** Empty", Seg.line ":PROPERTIES:", Seg.props [],
       Seg.line ":END:", Seg.line ""] rfl rfl (by decide)⟩

/-! ## Two runs with different properties iteration orders (claim C9) -/

/-- Case split on a pair of related run results. -/
theorem exceptSegsRel_cases {x y : Except String (List Seg)}
    (h : ExceptSegsRel x y) :
    (∃ s, x = .error s ∧ y = .error s) ∨
    (∃ a b, x = .ok a ∧ y = .ok b ∧ List.Forall₂ SegRel a b) := by
  cases x with
  | error s =>
    cases y with
    | error t =>
      have hst : s = t := h
      subst hst
      exact Or.inl ⟨s, rfl, rfl⟩
    | ok b =>
      have hc : False := h
      exact hc.elim
  | ok a =>
    cases y with
    | error t =>
      have hc : False := h
      exact hc.elim
    | ok b => exact Or.inr ⟨a, b, rfl, rfl, h⟩

theorem renderEntrySegs_rel (conv : String → String)
    (σ1 σ2 : Entry → List (String × String) → List (String × String))
    (h1 : ∀ e l, List.Perm (σ1 e l) l) (h2 : ∀ e l, List.Perm (σ2 e l) l)
    (e : Entry) :
    ExceptSegsRel (renderEntrySegs conv σ1 e) (renderEntrySegs conv σ2 e) := by
  unfold renderEntrySegs
  cases firstPhotoLink e.photos with
  | error s => exact rfl
  | ok fp =>
    cases e.properties with
    | error s => exact rfl
    | ok props =>
      exact List.Forall₂.cons rfl (List.Forall₂.cons rfl (List.Forall₂.cons
        (((h1 e props).trans (h2 e props).symm).map fmtProp)
        (List.Forall₂.cons rfl (List.Forall₂.cons rfl List.Forall₂.nil))))

theorem renderEntries_rel (conv : String → String)
    (σ1 σ2 : Entry → List (String × String) → List (String × String))
    (h1 : ∀ e l, List.Perm (σ1 e l) l) (h2 : ∀ e l, List.Perm (σ2 e l) l)
    (es : List Entry) :
    ExceptSegsRel (renderEntries conv σ1 es) (renderEntries conv σ2 es) := by
  induction es with
  | nil => exact List.Forall₂.nil
  | cons e es ih =>
    simp only [renderEntries]
    rcases exceptSegsRel_cases (renderEntrySegs_rel conv σ1 σ2 h1 h2 e) with
      ⟨s, hA, hB⟩ | ⟨a, b, hA, hB, hab⟩
    · rw [hA, hB]
      exact rfl
    · rw [hA, hB]
      rcases exceptSegsRel_cases ih with ⟨s, hA2, hB2⟩ | ⟨c, d, hA2, hB2, hcd⟩
      · rw [hA2, hB2]
        exact rfl
      · rw [hA2, hB2]
        exact List.rel_append hab hcd

theorem renderDaySegs_rel (conv : String → String)
    (σ1 σ2 : Entry → List (String × String) → List (String × String))
    (h1 : ∀ e l, List.Perm (σ1 e l) l) (h2 : ∀ e l, List.Perm (σ2 e l) l)
    (y : Int) (m d : Nat) (dy : Day) :
    ExceptSegsRel (renderDaySegs conv σ1 y m d dy)
      (renderDaySegs conv σ2 y m d dy) := by
  unfold renderDaySegs
  cases Day.name_from y m d with
  | error s => exact rfl
  | ok name =>
    rcases exceptSegsRel_cases (renderEntries_rel conv σ1 σ2 h1 h2 dy.entries) with
      ⟨s, hA, hB⟩ | ⟨a, b, hA, hB, hab⟩
    · rw [hA, hB]
      exact rfl
    · rw [hA, hB]
      exact List.Forall₂.cons rfl hab

theorem renderDayKeys_rel (conv : String → String)
    (σ1 σ2 : Entry → List (String × String) → List (String × String))
    (h1 : ∀ e l, List.Perm (σ1 e l) l) (h2 : ∀ e l, List.Perm (σ2 e l) l)
    (y : Int) (m : Nat) (days : List (Nat × Day)) :
    ∀ ks, ExceptSegsRel (renderDayKeys conv σ1 y m days ks)
      (renderDayKeys conv σ2 y m days ks) := by
  intro ks
  induction ks with
  | nil => exact List.Forall₂.nil
  | cons d ks ih =>
    cases hL : lookupA d days with
    | none =>
      simp only [renderDayKeys, hL]
      exact rfl
    | some dy =>
      simp only [renderDayKeys, hL]
      rcases exceptSegsRel_cases (renderDaySegs_rel conv σ1 σ2 h1 h2 y m d dy) with
        ⟨s, hA, hB⟩ | ⟨a, b, hA, hB, hab⟩
      · rw [hA, hB]
        exact rfl
      · rw [hA, hB]
        rcases exceptSegsRel_cases ih with ⟨s, hA2, hB2⟩ | ⟨c, dd, hA2, hB2, hcd⟩
        · rw [hA2, hB2]
          exact rfl
        · rw [hA2, hB2]
          exact List.rel_append hab hcd

theorem renderMonthSegs_rel (conv : String → String)
    (σ1 σ2 : Entry → List (String × String) → List (String × String))
    (h1 : ∀ e l, List.Perm (σ1 e l) l) (h2 : ∀ e l, List.Perm (σ2 e l) l)
    (y : Int) (m : Nat) (mo : Month) :
    ExceptSegsRel (renderMonthSegs conv σ1 y m mo)
      (renderMonthSegs conv σ2 y m mo) := by
  unfold renderMonthSegs
  cases Month.name_from m with
  | error s => exact rfl
  | ok mname =>
    rcases exceptSegsRel_cases (renderDayKeys_rel conv σ1 σ2 h1 h2 y m mo.days
        (sortKeysNat (mo.days.map Prod.fst))) with
      ⟨s, hA, hB⟩ | ⟨a, b, hA, hB, hab⟩
    · rw [hA, hB]
      exact rfl
    · rw [hA, hB]
      exact List.Forall₂.cons rfl hab

theorem renderMonthKeys_rel (conv : String → String)
    (σ1 σ2 : Entry → List (String × String) → List (String × String))
    (h1 : ∀ e l, List.Perm (σ1 e l) l) (h2 : ∀ e l, List.Perm (σ2 e l) l)
    (y : Int) (months : List (Nat × Month)) :
    ∀ ks, ExceptSegsRel (renderMonthKeys conv σ1 y months ks)
      (renderMonthKeys conv σ2 y months ks) := by
  intro ks
  induction ks with
  | nil => exact List.Forall₂.nil
  | cons m ks ih =>
    cases hL : lookupA m months with
    | none =>
      simp only [renderMonthKeys, hL]
      exact rfl
    | some mo =>
      simp only [renderMonthKeys, hL]
      rcases exceptSegsRel_cases (renderMonthSegs_rel conv σ1 σ2 h1 h2 y m mo) with
        ⟨s, hA, hB⟩ | ⟨a, b, hA, hB, hab⟩
      · rw [hA, hB]
        exact rfl
      · rw [hA, hB]
        rcases exceptSegsRel_cases ih with ⟨s, hA2, hB2⟩ | ⟨c, dd, hA2, hB2, hcd⟩
        · rw [hA2, hB2]
          exact rfl
        · rw [hA2, hB2]
          exact List.rel_append hab hcd

theorem renderYearSegs_rel (conv : String → String)
    (σ1 σ2 : Entry → List (String × String) → List (String × String))
    (h1 : ∀ e l, List.Perm (σ1 e l) l) (h2 : ∀ e l, List.Perm (σ2 e l) l)
    (y : Int) (yr : Year) :
    ExceptSegsRel (renderYearSegs conv σ1 y yr) (renderYearSegs conv σ2 y yr) := by
  unfold renderYearSegs
  rcases exceptSegsRel_cases (renderMonthKeys_rel conv σ1 σ2 h1 h2 y yr.months
      (sortKeysNat (yr.months.map Prod.fst))) with
    ⟨s, hA, hB⟩ | ⟨a, b, hA, hB, hab⟩
  · rw [hA, hB]
    exact rfl
  · rw [hA, hB]
    exact List.Forall₂.cons rfl hab

theorem renderYearKeys_rel (conv : String → String)
    (σ1 σ2 : Entry → List (String × String) → List (String × String))
    (h1 : ∀ e l, List.Perm (σ1 e l) l) (h2 : ∀ e l, List.Perm (σ2 e l) l)
    (years : List (Int × Year)) :
    ∀ ks, ExceptSegsRel (renderYearKeys conv σ1 years ks)
      (renderYearKeys conv σ2 years ks) := by
  intro ks
  induction ks with
  | nil => exact List.Forall₂.nil
  | cons y ks ih =>
    cases hL : lookupA y years with
    | none =>
      simp only [renderYearKeys, hL]
      exact rfl
    | some yr =>
      simp only [renderYearKeys, hL]
      rcases exceptSegsRel_cases (renderYearSegs_rel conv σ1 σ2 h1 h2 y yr) with
        ⟨s, hA, hB⟩ | ⟨a, b, hA, hB, hab⟩
      · rw [hA, hB]
        exact rfl
      · rw [hA, hB]
        rcases exceptSegsRel_cases ih with ⟨s, hA2, hB2⟩ | ⟨c, dd, hA2, hB2, hcd⟩
        · rw [hA2, hB2]
          exact rfl
        · rw [hA2, hB2]
          exact List.rel_append hab hcd

/-- Claim C9: two renderings of the same tree with the same deterministic
converter, under any two iteration orders of the per-entry properties maps,
either abort with the same error or produce segmentwise identical output,
the only difference being the order of lines inside a `:PROPERTIES:` block,
which stay equal as a multiset of key/value lines. -/
theorem C9_render_determinism (conv : String → String)
    (σ1 σ2 : Entry → List (String × String) → List (String × String))
    (h1 : ∀ e l, List.Perm (σ1 e l) l) (h2 : ∀ e l, List.Perm (σ2 e l) l)
    (r : Root) :
    ExceptSegsRel (Root.printSegs conv σ1 r) (Root.printSegs conv σ2 r) := by
  unfold Root.printSegs
  exact renderYearKeys_rel conv σ1 σ2 h1 h2 r.years
    (sortKeysInt (r.years.map Prod.fst))

/-- Witness for C9: the identity and the reversing iteration orders on a
concrete two-year tree. -/
theorem C9_render_determinism_witness :
    ExceptSegsRel (Root.printSegs convId sigId rootWa)
      (Root.printSegs convId sigRev rootWa) :=
  C9_render_determinism convId sigId sigRev (fun _ l => List.Perm.refl l)
    (fun _ l => List.reverse_perm l) rootWa

end D1
